import Mathlib

/-!
Verification of the escape-time core of `HolomorphicMotions.py`.

The numerical kernel of the repository consists of four functions:
`mandelbrot`, `mandelbrot_set`, `julia_boundary` and `julia_set_boundary`.
They are embedded below over exact rational arithmetic: a Python `complex`
becomes a pair of rationals, and the escape test `abs(z) > 2` is rendered
as `4 < normSq z`, which is equivalent for exact arithmetic since both
sides of the original comparison are nonnegative.
-/

/-- A complex number as stored by the Python code: a real and an imaginary
part. -/
structure Cx where
  re : ℚ
  im : ℚ
deriving DecidableEq

/-- Complex addition, as used by `z * z + c` in the loops. -/
def Cx.add (z w : Cx) : Cx := ⟨z.re + w.re, z.im + w.im⟩

/-- Complex multiplication, as used by `z * z + c` in the loops. -/
def Cx.mul (z w : Cx) : Cx := ⟨z.re * w.re - z.im * w.im, z.re * w.im + z.im * w.re⟩

/-- Squared magnitude of a complex number; the source test `abs(z) > 2`
is embedded as `4 < normSq z`. -/
def Cx.normSq (z : Cx) : ℚ := z.re * z.re + z.im * z.im

/-- Complex conjugation, used to state the vertical-reflection symmetry of
the Mandelbrot grid. -/
def Cx.conj (z : Cx) : Cx := ⟨z.re, -z.im⟩

/-- The loop of `mandelbrot` (lines 18-21 of the source): `fuel` counts the
remaining iterations of `range(max_iter)` and `n` the completed ones; when
the range is exhausted the function returns `max_iter`. -/
def mandelbrot.go (c : Cx) (max_iter : ℕ) : Cx → ℕ → ℕ → ℕ
  | _, _, 0 => max_iter
  | z, n, fuel + 1 =>
    if 4 < z.normSq then n else mandelbrot.go c max_iter ((z.mul z).add c) (n + 1) fuel

/-- `mandelbrot(c, max_iter)` from the source: starts the iterate at 0,
returns the iteration index at which the magnitude first exceeds 2, or
`max_iter` if that never happens. -/
def mandelbrot (c : Cx) (max_iter : ℕ) : ℕ :=
  mandelbrot.go c max_iter ⟨0, 0⟩ 0 max_iter

/-- The loop of `julia_boundary` (lines 40-43 of the source): identical to
the `mandelbrot` loop except that exhaustion returns the sentinel `-1`. -/
def julia_boundary.go (c : Cx) : Cx → ℕ → ℕ → ℤ
  | _, _, 0 => -1
  | z, n, fuel + 1 =>
    if 4 < z.normSq then (n : ℤ) else julia_boundary.go c ((z.mul z).add c) (n + 1) fuel

/-- `julia_boundary(c, z, max_iter)` from the source: starts the iterate at
the given `z`, returns the escape iteration index, or `-1` if the orbit
never escapes within the budget. -/
def julia_boundary (c z : Cx) (max_iter : ℕ) : ℤ :=
  julia_boundary.go c z 0 max_iter

/-- `np.linspace(a, b, num)` as an index function: `num` evenly spaced
samples from `a` to `b`, both endpoints included; for `num = 1` the single
sample is `a` (indices at or past `num` are irrelevant padding). -/
def linspace (a b : ℚ) (num : ℕ) (k : ℕ) : ℚ :=
  if num ≤ 1 then a else a + (k : ℚ) * (b - a) / ((num : ℚ) - 1)

/-- The triple `(r1, r2, img)` returned by the two grid samplers: the two
coordinate sequences and the height-by-width result map, `img i j` being
row `i`, column `j`. -/
structure GridResult where
  r1 : ℕ → ℚ
  r2 : ℕ → ℚ
  img : ℕ → ℕ → ℕ

/-- `mandelbrot_set` from the source: samples the region with `linspace`
along each axis and stores `mandelbrot(complex(r1[j], r2[i]), max_iter)` at
row `i`, column `j`. -/
def mandelbrot_set (xmin xmax ymin ymax : ℚ) (width height max_iter : ℕ) : GridResult where
  r1 := linspace xmin xmax width
  r2 := linspace ymin ymax height
  img := fun i j =>
    mandelbrot ⟨linspace xmin xmax width j, linspace ymin ymax height i⟩ max_iter

/-- The per-cell encoding applied by `julia_set_boundary` (lines 56-60 of
the source): a nonnegative escape count is stored as itself, and the
sentinel `-1` is stored as `0`. -/
def juliaEncode (result : ℤ) : ℕ :=
  if 0 ≤ result then result.toNat else 0

/-- `julia_set_boundary` from the source: samples the region with
`linspace` along each axis, evaluates `julia_boundary` at each sample with
the fixed parameter `c`, and stores the encoded result at row `i`,
column `j`. -/
def julia_set_boundary (c : Cx) (xmin xmax ymin ymax : ℚ) (width height max_iter : ℕ) :
    GridResult where
  r1 := linspace xmin xmax width
  r2 := linspace ymin ymax height
  img := fun i j =>
    juliaEncode
      (julia_boundary c ⟨linspace xmin xmax width j, linspace ymin ymax height i⟩ max_iter)

/-- The orbit of `z` under one step of `z * z + c` per index, written so
that `orbitFrom c z (n + 1)` is definitionally the orbit of the updated
iterate. -/
def orbitFrom (c : Cx) : Cx → ℕ → Cx
  | z, 0 => z
  | z, n + 1 => orbitFrom c ((z.mul z).add c) n

/-- The Mandelbrot orbit of the parameter `c`: the orbit of 0. -/
def orbit (c : Cx) : ℕ → Cx := orbitFrom c ⟨0, 0⟩

lemma mandelbrot_go_escape (c : Cx) (mi : ℕ) :
    ∀ fuel z n k, k < fuel → 4 < (orbitFrom c z k).normSq →
      (∀ m, m < k → (orbitFrom c z m).normSq ≤ 4) →
      mandelbrot.go c mi z n fuel = n + k := by
  intro fuel
  induction fuel with
  | zero => exact fun z n k hk => absurd hk (Nat.not_lt_zero k)
  | succ fuel ih =>
    intro z n k hk hesc hmin
    cases k with
    | zero =>
      have h0 : 4 < z.normSq := hesc
      simp [mandelbrot.go, h0]
    | succ k =>
      have hz : ¬ 4 < z.normSq := by
        have h1 := hmin 0 (Nat.succ_pos k)
        simp only [orbitFrom] at h1
        exact not_lt.mpr h1
      have hrec := ih ((z.mul z).add c) (n + 1) k (Nat.lt_of_succ_lt_succ hk) hesc
        (fun m hm => hmin (m + 1) (Nat.succ_lt_succ hm))
      simp only [mandelbrot.go, if_neg hz, hrec]
      omega

lemma mandelbrot_go_exhaust (c : Cx) (mi : ℕ) :
    ∀ fuel z n, (∀ m, m < fuel → (orbitFrom c z m).normSq ≤ 4) →
      mandelbrot.go c mi z n fuel = mi := by
  intro fuel
  induction fuel with
  | zero => intro z n _; rfl
  | succ fuel ih =>
    intro z n hmin
    have hz : ¬ 4 < z.normSq := by
      have h1 := hmin 0 (Nat.succ_pos fuel)
      simp only [orbitFrom] at h1
      exact not_lt.mpr h1
    simp only [mandelbrot.go, if_neg hz]
    exact ih ((z.mul z).add c) (n + 1) (fun m hm => hmin (m + 1) (Nat.succ_lt_succ hm))

lemma julia_go_escape (c : Cx) :
    ∀ fuel z n k, k < fuel → 4 < (orbitFrom c z k).normSq →
      (∀ m, m < k → (orbitFrom c z m).normSq ≤ 4) →
      julia_boundary.go c z n fuel = ((n + k : ℕ) : ℤ) := by
  intro fuel
  induction fuel with
  | zero => exact fun z n k hk => absurd hk (Nat.not_lt_zero k)
  | succ fuel ih =>
    intro z n k hk hesc hmin
    cases k with
    | zero =>
      have h0 : 4 < z.normSq := hesc
      simp [julia_boundary.go, h0]
    | succ k =>
      have hz : ¬ 4 < z.normSq := by
        have h1 := hmin 0 (Nat.succ_pos k)
        simp only [orbitFrom] at h1
        exact not_lt.mpr h1
      have hrec := ih ((z.mul z).add c) (n + 1) k (Nat.lt_of_succ_lt_succ hk) hesc
        (fun m hm => hmin (m + 1) (Nat.succ_lt_succ hm))
      simp only [julia_boundary.go, if_neg hz, hrec]
      congr 1
      omega

lemma julia_go_exhaust (c : Cx) :
    ∀ fuel z n, (∀ m, m < fuel → (orbitFrom c z m).normSq ≤ 4) →
      julia_boundary.go c z n fuel = -1 := by
  intro fuel
  induction fuel with
  | zero => intro z n _; rfl
  | succ fuel ih =>
    intro z n hmin
    have hz : ¬ 4 < z.normSq := by
      have h1 := hmin 0 (Nat.succ_pos fuel)
      simp only [orbitFrom] at h1
      exact not_lt.mpr h1
    simp only [julia_boundary.go, if_neg hz]
    exact ih ((z.mul z).add c) (n + 1) (fun m hm => hmin (m + 1) (Nat.succ_lt_succ hm))

lemma go_pair (c : Cx) (mi : ℕ) :
    ∀ fuel z n,
      (julia_boundary.go c z n fuel = -1 ∧ mandelbrot.go c mi z n fuel = mi) ∨
      (∃ k, k < fuel ∧ julia_boundary.go c z n fuel = ((n + k : ℕ) : ℤ) ∧
        mandelbrot.go c mi z n fuel = n + k) := by
  intro fuel
  induction fuel with
  | zero => exact fun z n => Or.inl ⟨rfl, rfl⟩
  | succ fuel ih =>
    intro z n
    by_cases hz : 4 < z.normSq
    · refine Or.inr ⟨0, Nat.succ_pos fuel, ?_, ?_⟩ <;>
        simp [julia_boundary.go, mandelbrot.go, hz]
    · rcases ih ((z.mul z).add c) (n + 1) with h | ⟨k, hk, hj, hm⟩
      · exact Or.inl (by simpa [julia_boundary.go, mandelbrot.go, hz] using h)
      · refine Or.inr ⟨k + 1, Nat.succ_lt_succ hk, ?_, ?_⟩
        · simp only [julia_boundary.go, if_neg hz, hj]
          congr 1
          omega
        · simp only [mandelbrot.go, if_neg hz, hm]
          omega

lemma julia_escapes_at (c z0 : Cx) (mi n : ℕ) (hn : n < mi)
    (hesc : 4 < (orbitFrom c z0 n).normSq)
    (hmin : ∀ m, m < n → (orbitFrom c z0 m).normSq ≤ 4) :
    julia_boundary c z0 mi = (n : ℤ) := by
  have h := julia_go_escape c mi z0 0 n hn hesc hmin
  simpa [julia_boundary] using h

lemma mandelbrot_escapes_at (c : Cx) (mi n : ℕ) (hn : n < mi)
    (hesc : 4 < (orbit c n).normSq)
    (hmin : ∀ m, m < n → (orbit c m).normSq ≤ 4) :
    mandelbrot c mi = n := by
  have h := mandelbrot_go_escape c mi mi ⟨0, 0⟩ 0 n hn hesc hmin
  simpa [mandelbrot, orbit] using h

lemma mandelbrot_exhausts (c : Cx) (mi : ℕ)
    (hmin : ∀ n, n < mi → (orbit c n).normSq ≤ 4) :
    mandelbrot c mi = mi :=
  mandelbrot_go_exhaust c mi mi ⟨0, 0⟩ 0 hmin

/-- C1: the Escape Evaluator checks the threshold before each update and
returns the number of completed iterations at the first check that
exceeds it; on exhaustion the Julia variant runs out of fuel, and the
Mandelbrot variant returns `max_iter`. Stated via the orbit of the map
`z * z + c`: if `n` is the first index below the budget whose orbit point
has squared magnitude above 4, the evaluators return `n`; if no index
below the budget does, the Mandelbrot variant returns `max_iter`. -/
theorem mandelbrot_escape_semantics (c z0 : Cx) (mi : ℕ) :
    (∀ n, n < mi → 4 < (orbitFrom c z0 n).normSq →
      (∀ m, m < n → (orbitFrom c z0 m).normSq ≤ 4) →
      julia_boundary c z0 mi = (n : ℤ)) ∧
    (∀ n, n < mi → 4 < (orbit c n).normSq →
      (∀ m, m < n → (orbit c m).normSq ≤ 4) →
      mandelbrot c mi = n) ∧
    ((∀ n, n < mi → (orbit c n).normSq ≤ 4) → mandelbrot c mi = mi) :=
  ⟨julia_escapes_at c z0 mi, mandelbrot_escapes_at c mi, mandelbrot_exhausts c mi⟩

/-- Witness for C1 at concrete inputs: `z0 = 3` escapes at iteration 0
under `c = 0`, and `c = i` never escapes within budget 3. -/
theorem mandelbrot_escape_semantics_witness :
    julia_boundary ⟨0, 0⟩ ⟨3, 0⟩ 2 = 0 ∧ mandelbrot ⟨0, 1⟩ 3 = 3 := by
  constructor
  · have h := (mandelbrot_escape_semantics ⟨0, 0⟩ ⟨3, 0⟩ 2).1 0 (by norm_num)
      (by norm_num [orbitFrom, Cx.normSq]) (fun m hm => absurd hm (Nat.not_lt_zero m))
    simpa using h
  · refine (mandelbrot_escape_semantics ⟨0, 1⟩ ⟨0, 0⟩ 3).2.2 ?_
    intro n hn
    interval_cases n <;>
      norm_num [orbit, orbitFrom, Cx.normSq, Cx.mul, Cx.add]

/-- C2: for a region with `xmin < xmax`, `ymin < ymax` and both resolutions
at least 2, the samplers use the inclusive linear interpolation formulas on
each axis, and the cell at row `i`, column `j` holds the evaluator's result
for the sample point `(xs[j], ys[i])`. -/
theorem grid_sampling_formula (xmin xmax ymin ymax : ℚ) (w h mi : ℕ) (c : Cx)
    (hw : 2 ≤ w) (hh : 2 ≤ h) (hx : xmin < xmax) (hy : ymin < ymax)
    (i j : ℕ) (hi : i < h) (hj : j < w) :
    (mandelbrot_set xmin xmax ymin ymax w h mi).r1 j
        = xmin + (j : ℚ) * (xmax - xmin) / ((w : ℚ) - 1) ∧
    (mandelbrot_set xmin xmax ymin ymax w h mi).r2 i
        = ymin + (i : ℚ) * (ymax - ymin) / ((h : ℚ) - 1) ∧
    (mandelbrot_set xmin xmax ymin ymax w h mi).img i j
        = mandelbrot ⟨xmin + (j : ℚ) * (xmax - xmin) / ((w : ℚ) - 1),
            ymin + (i : ℚ) * (ymax - ymin) / ((h : ℚ) - 1)⟩ mi ∧
    (julia_set_boundary c xmin xmax ymin ymax w h mi).img i j
        = juliaEncode (julia_boundary c ⟨xmin + (j : ℚ) * (xmax - xmin) / ((w : ℚ) - 1),
            ymin + (i : ℚ) * (ymax - ymin) / ((h : ℚ) - 1)⟩ mi) := by
  have hw1 : ¬ w ≤ 1 := by omega
  have hh1 : ¬ h ≤ 1 := by omega
  refine ⟨?_, ?_, ?_, ?_⟩ <;>
    simp [mandelbrot_set, julia_set_boundary, linspace, hw1, hh1]

/-- Witness for C2: the 2-by-2 grid on the unit square stores the
evaluation of the right endpoint sample in row 0, column 1. -/
theorem grid_sampling_formula_witness :
    (mandelbrot_set 0 1 0 1 2 2 1).img 0 1 = mandelbrot ⟨1, 0⟩ 1 := by
  have h := (grid_sampling_formula 0 1 0 1 2 2 1 ⟨0, 0⟩ (by norm_num) (by norm_num)
    (by norm_num) (by norm_num) 0 1 (by norm_num) (by norm_num)).2.2.1
  norm_num at h
  exact h

/-- C3 counterexample: `c = 3` has squared magnitude above 4, yet
`mandelbrot 3 5` returns 1, not 0 — the first check sees the iterate 0,
which has not escaped, so the evaluator can never return 0 with a positive
budget. -/
theorem escape_immediate_counterexample :
    4 < Cx.normSq ⟨3, 0⟩ ∧ mandelbrot ⟨3, 0⟩ 5 ≠ 0 := by
  constructor
  · norm_num [Cx.normSq]
  · norm_num [mandelbrot, mandelbrot.go, Cx.normSq, Cx.mul, Cx.add]

/-- C3 amended: for every parameter with squared magnitude above 4 and
every budget of at least one iteration, the Mandelbrot evaluation returns
1: the check at iteration 0 sees the iterate 0, the update sets the
iterate to `c`, and either the check at iteration 1 fires or the budget
of exactly one iteration is exhausted, returning `max_iter = 1`. -/
theorem escape_immediate_amended (c : Cx) (mi : ℕ) (hc : 4 < c.normSq) (hmi : 1 ≤ mi) :
    mandelbrot c mi = 1 := by
  have horb1 : orbit c 1 = c := by
    simp [orbit, orbitFrom, Cx.mul, Cx.add]
  rcases Nat.lt_or_ge 1 mi with h1 | h1
  · refine mandelbrot_escapes_at c mi 1 h1 (by rwa [horb1]) ?_
    intro m hm
    interval_cases m
    norm_num [orbit, orbitFrom, Cx.normSq]
  · have hmi1 : mi = 1 := by omega
    subst hmi1
    refine mandelbrot_exhausts c 1 ?_
    intro n hn
    interval_cases n
    norm_num [orbit, orbitFrom, Cx.normSq]

/-- Witness for C3's amended claim at `c = 3`, budget 5. -/
theorem escape_immediate_amended_witness : mandelbrot ⟨3, 0⟩ 5 = 1 :=
  escape_immediate_amended ⟨3, 0⟩ 5 (by norm_num [Cx.normSq]) (by norm_num)

/-- C4 counterexample: with `c = 0` on the degenerate strip from 0 to 3,
the cell for the non-escaping sample 0 and the cell for the sample 3,
which escapes at iteration 0, both hold the value 0 in the delivered
grid — the non-escape outcome is stored as 0, not as a sentinel distinct
from 0. -/
theorem julia_sentinel_counterexample :
    julia_boundary ⟨0, 0⟩ ⟨0, 0⟩ 3 = -1 ∧
    julia_boundary ⟨0, 0⟩ ⟨3, 0⟩ 3 = 0 ∧
    (julia_set_boundary ⟨0, 0⟩ 0 3 0 0 2 2 3).img 0 0 = 0 ∧
    (julia_set_boundary ⟨0, 0⟩ 0 3 0 0 2 2 3).img 0 1 = 0 := by
  refine ⟨?_, ?_, ?_, ?_⟩ <;>
    norm_num [julia_boundary, julia_boundary.go, julia_set_boundary, juliaEncode,
      linspace, Cx.normSq, Cx.mul, Cx.add]

/-- C4 amended: the evaluator itself encodes non-escape as the sentinel
`-1`, which is distinct from every valid iteration count, but the grid
stores non-escaping cells as 0, so in the delivered ResultMap the
non-escape outcome coincides with an escape at iteration 0. -/
theorem julia_sentinel_amended (c : Cx) (xmin xmax ymin ymax : ℚ) (w h mi i j : ℕ) :
    (julia_boundary c ⟨linspace xmin xmax w j, linspace ymin ymax h i⟩ mi = -1 ∨
      ∃ n : ℕ, n < mi ∧
        julia_boundary c ⟨linspace xmin xmax w j, linspace ymin ymax h i⟩ mi = (n : ℤ)) ∧
    (julia_boundary c ⟨linspace xmin xmax w j, linspace ymin ymax h i⟩ mi = -1 →
      (julia_set_boundary c xmin xmax ymin ymax w h mi).img i j = 0) ∧
    (∀ n : ℕ, julia_boundary c ⟨linspace xmin xmax w j, linspace ymin ymax h i⟩ mi = (n : ℤ) →
      (julia_set_boundary c xmin xmax ymin ymax w h mi).img i j = n) := by
  refine ⟨?_, fun hjb => ?_, fun n hjb => ?_⟩
  · rcases go_pair c mi mi ⟨linspace xmin xmax w j, linspace ymin ymax h i⟩ 0 with h | ⟨k, hk, hj, _⟩
    · exact Or.inl h.1
    · exact Or.inr ⟨k, hk, by simpa [julia_boundary] using hj⟩
  · simp [julia_set_boundary, hjb, juliaEncode]
  · simp [julia_set_boundary, hjb, juliaEncode]

/-- Witness for C4's amended claim on the same degenerate strip as the
counterexample. -/
theorem julia_sentinel_amended_witness :
    (julia_set_boundary ⟨0, 0⟩ 0 3 0 0 2 2 3).img 0 0 = 0 ∧
    (julia_set_boundary ⟨0, 0⟩ 0 3 0 0 2 2 3).img 0 1 = 0 :=
  ⟨(julia_sentinel_amended ⟨0, 0⟩ 0 3 0 0 2 2 3 0 0).2.1
      (by norm_num [julia_boundary, julia_boundary.go, linspace, Cx.normSq, Cx.mul, Cx.add]),
    (julia_sentinel_amended ⟨0, 0⟩ 0 3 0 0 2 2 3 0 1).2.2 0
      (by norm_num [julia_boundary, julia_boundary.go, linspace, Cx.normSq, Cx.mul, Cx.add])⟩

/-- C5 counterexample: a call with `xmin = 1 > 0 = xmax` is not rejected:
the sampler proceeds, sweeps a reversed coordinate sequence, and delivers
computed escape counts — here the cell for the sample 1 holds the escape
count 3. -/
theorem region_validation_counterexample :
    (0 : ℚ) < 1 ∧
    (mandelbrot_set 1 0 0 1 2 2 5).img 0 0 = mandelbrot ⟨1, 0⟩ 5 ∧
    mandelbrot ⟨1, 0⟩ 5 = 3 := by
  refine ⟨by norm_num, ?_, ?_⟩
  · norm_num [mandelbrot_set, linspace]
  · norm_num [mandelbrot, mandelbrot.go, Cx.normSq, Cx.mul, Cx.add]

/-- C5 amended: the grid samplers perform no validation at all: even for
an empty or reversed region, or a zero resolution, every requested cell is
produced by running the escape evaluator on the `linspace` sample point,
and no contract violation is ever signalled. -/
theorem region_validation_amended (c : Cx) (xmin xmax ymin ymax : ℚ) (w h mi i j : ℕ)
    (hinvalid : xmax ≤ xmin ∨ ymax ≤ ymin ∨ w = 0 ∨ h = 0) :
    (mandelbrot_set xmin xmax ymin ymax w h mi).img i j =
      mandelbrot ⟨linspace xmin xmax w j, linspace ymin ymax h i⟩ mi ∧
    (julia_set_boundary c xmin xmax ymin ymax w h mi).img i j =
      juliaEncode (julia_boundary c ⟨linspace xmin xmax w j, linspace ymin ymax h i⟩ mi) :=
  ⟨rfl, rfl⟩

/-- Witness for C5's amended claim at the reversed region of the
counterexample. -/
theorem region_validation_amended_witness :
    (mandelbrot_set 1 0 0 1 2 2 5).img 0 0 =
      mandelbrot ⟨linspace 1 0 2 0, linspace 0 1 2 0⟩ 5 :=
  (region_validation_amended ⟨0, 0⟩ 1 0 0 1 2 2 5 0 0 (Or.inl (by norm_num))).1

/-- C6: the Mandelbrot evaluation always lies in `[0, max_iter]`, and with
a budget of one iteration every cell of a Mandelbrot grid is 0 or 1. -/
theorem result_range (c : Cx) (mi : ℕ) (xmin xmax ymin ymax : ℚ) (w h i j : ℕ) :
    mandelbrot c mi ≤ mi ∧
    ((mandelbrot_set xmin xmax ymin ymax w h 1).img i j = 0 ∨
      (mandelbrot_set xmin xmax ymin ymax w h 1).img i j = 1) := by
  have key : ∀ (d : Cx) (b : ℕ), mandelbrot d b ≤ b := by
    intro d b
    rcases go_pair d b b ⟨0, 0⟩ 0 with h1 | ⟨k, hk, _, hm⟩
    · rw [mandelbrot, h1.2]
    · rw [mandelbrot, hm]
      omega
  refine ⟨key c mi, ?_⟩
  have h1 := key ⟨linspace xmin xmax w j, linspace ymin ymax h i⟩ 1
  have himg : (mandelbrot_set xmin xmax ymin ymax w h 1).img i j =
      mandelbrot ⟨linspace xmin xmax w j, linspace ymin ymax h i⟩ 1 := rfl
  omega

/-- C7: the origin parameter never escapes: with `c = 0` the iterate stays
at 0 through every check, so the evaluation returns `max_iter`. -/
theorem origin_never_escapes (mi : ℕ) : mandelbrot ⟨0, 0⟩ mi = mi := by
  have horb : ∀ n, orbit ⟨0, 0⟩ n = ⟨0, 0⟩ := by
    intro n
    induction n with
    | zero => rfl
    | succ n ih =>
      have hz : ((Cx.mul ⟨0, 0⟩ ⟨0, 0⟩).add ⟨0, 0⟩) = (⟨0, 0⟩ : Cx) := by
        norm_num [Cx.mul, Cx.add]
      show orbitFrom ⟨0, 0⟩ ((Cx.mul ⟨0, 0⟩ ⟨0, 0⟩).add ⟨0, 0⟩) n = ⟨0, 0⟩
      rw [hz]
      exact ih
  refine mandelbrot_exhausts ⟨0, 0⟩ mi ?_
  intro n _
  rw [horb n]
  norm_num [Cx.normSq]

lemma normSq_conj (z : Cx) : z.conj.normSq = z.normSq := by
  simp only [Cx.conj, Cx.normSq]
  ring

lemma conj_step (z c : Cx) : ((z.conj.mul z.conj).add c.conj) = ((z.mul z).add c).conj := by
  simp only [Cx.conj, Cx.mul, Cx.add, Cx.mk.injEq]
  constructor <;> ring

lemma go_conj (c : Cx) (mi : ℕ) :
    ∀ fuel z n, mandelbrot.go c.conj mi z.conj n fuel = mandelbrot.go c mi z n fuel := by
  intro fuel
  induction fuel with
  | zero => intro z n; rfl
  | succ fuel ih =>
    intro z n
    by_cases hz : 4 < z.normSq
    · have h1 : 4 < z.conj.normSq := by rwa [normSq_conj]
      simp [mandelbrot.go, hz, h1]
    · have h1 : ¬ 4 < z.conj.normSq := by rwa [normSq_conj]
      simp only [mandelbrot.go, if_neg hz, if_neg h1]
      rw [conj_step]
      exact ih ((z.mul z).add c) (n + 1)

lemma mandelbrot_conj (c : Cx) (mi : ℕ) : mandelbrot c.conj mi = mandelbrot c mi := by
  have h := go_conj c mi mi ⟨0, 0⟩ 0
  have h0 : (Cx.conj ⟨0, 0⟩) = (⟨0, 0⟩ : Cx) := by norm_num [Cx.conj]
  rw [h0] at h
  simpa [mandelbrot] using h

lemma linspace_neg_symm (ymax : ℚ) (h i : ℕ) (hh : 2 ≤ h) (hi : i < h) :
    linspace (-ymax) ymax h (h - 1 - i) = -(linspace (-ymax) ymax h i) := by
  have hh1 : ¬ h ≤ 1 := by omega
  have h1 : 1 ≤ h := by omega
  have h2 : i ≤ h - 1 := by omega
  have hcast : ((h - 1 - i : ℕ) : ℚ) = (h : ℚ) - 1 - (i : ℚ) := by
    rw [Nat.cast_sub h2, Nat.cast_sub h1]
    norm_num
  have hne : ((h : ℚ) - 1) ≠ 0 := by
    have hc : (2 : ℚ) ≤ (h : ℚ) := by exact_mod_cast hh
    linarith
  simp only [linspace, if_neg hh1, hcast]
  field_simp
  ring

/-- C8: on a region whose imaginary range is symmetric about 0, the
Mandelbrot grid is symmetric under vertical reflection: row `i` equals row
`height - 1 - i` in every column, because the sampled parameters are
complex conjugates and the map `z * z + c` commutes with conjugation. -/
theorem vertical_symmetry (xmin xmax ymax : ℚ) (w h mi : ℕ) (i j : ℕ)
    (hi : i < h) (hj : j < w) :
    (mandelbrot_set xmin xmax (-ymax) ymax w h mi).img i j =
      (mandelbrot_set xmin xmax (-ymax) ymax w h mi).img (h - 1 - i) j := by
  rcases Nat.lt_or_ge h 2 with hh | hh
  · have hieq : h - 1 - i = i := by omega
    rw [hieq]
  · have hsym := linspace_neg_symm ymax h i hh hi
    show mandelbrot ⟨linspace xmin xmax w j, linspace (-ymax) ymax h i⟩ mi =
      mandelbrot ⟨linspace xmin xmax w j, linspace (-ymax) ymax h (h - 1 - i)⟩ mi
    rw [hsym]
    have hconj : (⟨linspace xmin xmax w j, -(linspace (-ymax) ymax h i)⟩ : Cx) =
        Cx.conj ⟨linspace xmin xmax w j, linspace (-ymax) ymax h i⟩ := rfl
    rw [hconj, mandelbrot_conj]

/-- Witness for C8 on a 2-by-3 grid over the square with imaginary range
symmetric about 0: row 0 equals row 2 in column 0. -/
theorem vertical_symmetry_witness :
    (mandelbrot_set 0 1 (-1) 1 2 3 2).img 0 0 = (mandelbrot_set 0 1 (-1) 1 2 3 2).img 2 0 :=
  vertical_symmetry 0 1 1 2 3 2 0 0 (by norm_num) (by norm_num)

/-- C9: started from `z0 = 0`, the Julia-boundary evaluator and the
Mandelbrot evaluator agree: a nonnegative count carries over unchanged,
and the sentinel `-1` corresponds to the Mandelbrot result `max_iter`. -/
theorem julia_mandelbrot_agreement (c : Cx) (mi : ℕ) :
    (∀ n : ℕ, julia_boundary c ⟨0, 0⟩ mi = (n : ℤ) → mandelbrot c mi = n) ∧
    (julia_boundary c ⟨0, 0⟩ mi = -1 → mandelbrot c mi = mi) := by
  rcases go_pair c mi mi ⟨0, 0⟩ 0 with ⟨hj, hm⟩ | ⟨k, hk, hj, hm⟩
  · constructor
    · intro n hn
      unfold julia_boundary at hn
      rw [hj] at hn
      omega
    · intro _
      simpa [mandelbrot] using hm
  · constructor
    · intro n hn
      unfold julia_boundary at hn
      rw [hj] at hn
      have hkn : k = n := by omega
      rw [mandelbrot, hm]
      omega
    · intro hsent
      unfold julia_boundary at hsent
      rw [hj] at hsent
      exfalso
      omega

/-- Witness for C9: `c = 3i` escapes at iteration 1 in both evaluators,
and `c = 0` exhausts the budget in both. -/
theorem julia_mandelbrot_agreement_witness :
    mandelbrot ⟨0, 3⟩ 5 = 1 ∧ mandelbrot ⟨0, 0⟩ 4 = 4 :=
  ⟨(julia_mandelbrot_agreement ⟨0, 3⟩ 5).1 1
      (by norm_num [julia_boundary, julia_boundary.go, Cx.normSq, Cx.mul, Cx.add]),
    (julia_mandelbrot_agreement ⟨0, 0⟩ 4).2
      (by norm_num [julia_boundary, julia_boundary.go, Cx.normSq, Cx.mul, Cx.add])⟩

lemma go_ge_one (c : Cx) (mi : ℕ) :
    ∀ fuel z n, 1 ≤ mi → 1 ≤ n → 1 ≤ mandelbrot.go c mi z n fuel := by
  intro fuel
  induction fuel with
  | zero => intro z n hmi _; simpa [mandelbrot.go] using hmi
  | succ fuel ih =>
    intro z n hmi hn
    by_cases hz : 4 < z.normSq
    · simpa [mandelbrot.go, hz] using hn
    · simp only [mandelbrot.go, if_neg hz]
      exact ih _ (n + 1) hmi (by omega)

/-- C10: with a positive budget the Mandelbrot evaluation never returns 0:
the check at iteration 0 sees the iterate 0, which has not escaped, so at
least one iteration always completes. -/
theorem mandelbrot_positive (c : Cx) (mi : ℕ) (hmi : 1 ≤ mi) : 1 ≤ mandelbrot c mi := by
  obtain ⟨k, rfl⟩ : ∃ k, mi = k + 1 := ⟨mi - 1, by omega⟩
  show 1 ≤ mandelbrot.go c (k + 1) ⟨0, 0⟩ 0 (k + 1)
  have hz : ¬ 4 < (Cx.normSq ⟨0, 0⟩) := by norm_num [Cx.normSq]
  simp only [mandelbrot.go, if_neg hz]
  exact go_ge_one c (k + 1) k _ 1 (by omega) (by omega)

/-- Witness for C10 at `c = 5 + 5i`, budget 7. -/
theorem mandelbrot_positive_witness : 1 ≤ mandelbrot ⟨5, 5⟩ 7 :=
  mandelbrot_positive ⟨5, 5⟩ 7 (by norm_num)
